import Mathlib

/-!
Shallow embedding of the `concurrent_arena` crate (src/bitmap.rs, src/bucket.rs,
src/arena.rs) as sequential state-passing functions.  Atomic CAS loops collapse
to single updates in the sequential model; shared `Arc<Bucket>` state is passed
and returned explicitly.  `u8` / `u64` / `u32` arithmetic is modelled on `Nat`
with explicit wrapping (`% 256`) where the source wraps.
-/

/-- usize::BITS on the 64-bit platforms the crate targets. -/
def WORD_BITS : Nat := 64

/-- usize::MAX. -/
def WORD_MAX : Nat := 2 ^ WORD_BITS - 1

/-- u32::MAX. -/
def U32_MAX : Nat := 2 ^ 32 - 1

/-- REMOVED_MASK in bucket.rs: `1 << (u8::BITS - 1)`. -/
def REMOVED_MASK : Nat := 128

/-- REFCNT_MASK in bucket.rs: `!REMOVED_MASK` on u8. -/
def REFCNT_MASK : Nat := 127

/-- MAX_REFCNT in bucket.rs: equals REFCNT_MASK. -/
def MAX_REFCNT : Nat := 127

/-- bitmap.rs `BitMap<BITARRAY_LEN>`: an array of atomic machine words,
here a list of Nat, each kept `< 2 ^ WORD_BITS` by the operations. -/
structure BitMap where
  words : List Nat
deriving DecidableEq

/-- bitmap.rs `BitMap::new`: all words zero. -/
def BitMap.new (b : Nat) : BitMap := ⟨List.replicate b 0⟩

/-- bitmap.rs `BitMap::load`: relaxed read of bit `index`. -/
def BitMap.load (bm : BitMap) (index : Nat) : Bool :=
  Nat.testBit (bm.words.getD (index / WORD_BITS) 0) (index % WORD_BITS)

/-- The inner LSB-to-MSB scan of bitmap.rs `allocate`: first clear bit of a
word, scanning bit positions `0..WORD_BITS`. -/
def findClearBit (w : Nat) : Option Nat :=
  (List.range WORD_BITS).find? (fun i => ! Nat.testBit w i)

/-- The iteration order of the word scan in bitmap.rs `allocate` and of the
bucket scan in arena.rs `try_insert`: indices `pos..n` then `0..pos`
(`slice1_iter.chain(slice2_iter)`). -/
def rotatedIndices (n pos : Nat) : List Nat :=
  (List.range n).drop pos ++ (List.range n).take pos

/-- The outer loop of bitmap.rs `allocate` over the rotated word positions.
A word equal to `usize::MAX` is skipped; otherwise the first clear bit is
set by CAS (which always succeeds in the sequential model).  The
`findClearBit = none` fallthrough is unreachable for words `< 2 ^ WORD_BITS`
(the source would rescan the same word forever there). -/
def BitMap.allocateFrom : List Nat → BitMap → Option (Nat × BitMap)
  | [], _ => none
  | pos :: rest, bm =>
    let w := bm.words.getD pos 0
    if w = WORD_MAX then
      BitMap.allocateFrom rest bm
    else
      match findClearBit w with
      | some i => some (pos * WORD_BITS + i, ⟨bm.words.set pos (w ||| (1 <<< i))⟩)
      | none => BitMap.allocateFrom rest bm

/-- bitmap.rs `BitMap::allocate`: scan words starting at
`thread_id % BITARRAY_LEN`. -/
def BitMap.allocate (bm : BitMap) (tid : Nat) : Option (Nat × BitMap) :=
  BitMap.allocateFrom (rotatedIndices bm.words.length (tid % bm.words.length)) bm

/-- bitmap.rs `BitMap::deallocate`: clear bit `index`
(`fetch_and` with `!(1 << (index % bits))`, a 64-bit mask). -/
def BitMap.deallocate (bm : BitMap) (index : Nat) : BitMap :=
  let chunk := index / WORD_BITS
  let w := bm.words.getD chunk 0
  ⟨bm.words.set chunk (w &&& (WORD_MAX ^^^ (1 <<< (index % WORD_BITS))))⟩

/-- bucket.rs `Entry<T>`: one atomic state byte plus an `Option<T>` cell. -/
structure Entry (α : Type) where
  counter : Nat
  val : Option α
deriving DecidableEq

/-- The freshly constructed entry (`Entry::new`). -/
def Entry.empty {α : Type} : Entry α := ⟨0, none⟩

/-- bucket.rs `Bucket<T, BITARRAY_LEN, LEN>`. -/
structure Bucket (α : Type) where
  bitset : BitMap
  entries : List (Entry α)
deriving DecidableEq

/-- bucket.rs `Bucket::new` with `BITARRAY_LEN = b`, `LEN = l`. -/
def Bucket.new (α : Type) (b l : Nat) : Bucket α :=
  ⟨BitMap.new b, List.replicate l Entry.empty⟩

/-- bucket.rs `ArenaArc<T, ...>` minus the shared bucket pointer, which the
sequential model passes around explicitly. -/
structure ArenaArc where
  slot : Nat
  index : Nat
deriving DecidableEq

/-- Replace only the counter of entry `index`, keeping its cell. -/
def Bucket.setCounter {α : Type} (bk : Bucket α) (index c : Nat) : Bucket α :=
  ⟨bk.bitset, bk.entries.set index ⟨c, (bk.entries.getD index Entry.empty).val⟩⟩

/-- bucket.rs `Bucket::try_insert`: allocate a bitmap bit; on failure return
the value; on index `i` write the value into the cell and store the counter
to 2 (one for the `ArenaArc`, one for the bucket itself). -/
def Bucket.try_insert {α : Type} (bk : Bucket α) (bucket_index : Nat) (value : α)
    (tid l : Nat) : Except α (ArenaArc × Bucket α) :=
  match bk.bitset.allocate tid with
  | none => .error value
  | some (index, bitset') =>
    .ok (⟨bucket_index * l + index, index⟩,
         ⟨bitset', bk.entries.set index ⟨2, some value⟩⟩)

/-- Result of bucket-level `get` / `remove`.  `stuck` models the
spin-pause-and-reload loop taken when the counter reads 0 while the bitmap
bit is set (the initialization window), which cannot terminate in a
sequential execution. -/
inductive OpResult (α : Type) where
  | ok : ArenaArc → Bucket α → OpResult α
  | miss : OpResult α
  | stuck : OpResult α
deriving DecidableEq

/-- bucket.rs `Bucket::get`: bit clear → none; tombstone → none; counter 0 →
spin; otherwise CAS the counter to `counter + 1` and hand out an arc. -/
def Bucket.get {α : Type} (bk : Bucket α) (bucket_index index l : Nat) : OpResult α :=
  if bk.bitset.load index then
    let c := (bk.entries.getD index Entry.empty).counter
    if c &&& REMOVED_MASK ≠ 0 then .miss
    else if c = 0 then .stuck
    else .ok ⟨bucket_index * l + index, index⟩ (bk.setCounter index (c + 1))
  else .miss

/-- bucket.rs `Bucket::remove`: like `get` but the CAS sets the tombstone bit
(`counter | REMOVED_MASK`) without changing the refcount. -/
def Bucket.remove {α : Type} (bk : Bucket α) (bucket_index index l : Nat) : OpResult α :=
  if bk.bitset.load index then
    let c := (bk.entries.getD index Entry.empty).counter
    if c &&& REMOVED_MASK ≠ 0 then .miss
    else if c = 0 then .stuck
    else .ok ⟨bucket_index * l + index, index⟩ (bk.setCounter index (c ||| REMOVED_MASK))
  else .miss

/-- bucket.rs `ArenaArc::strong_count`: counter load masked by REFCNT_MASK. -/
def ArenaArc.strong_count {α : Type} (arc : ArenaArc) (bk : Bucket α) : Nat :=
  (bk.entries.getD arc.index Entry.empty).counter &&& REFCNT_MASK

/-- bucket.rs `ArenaArc::is_removed`. -/
def ArenaArc.is_removed {α : Type} (arc : ArenaArc) (bk : Bucket α) : Bool :=
  (bk.entries.getD arc.index Entry.empty).counter &&& REMOVED_MASK ≠ 0

/-- bucket.rs `ArenaArc::remove` (in-place remove through a live handle):
already-tombstoned → false; otherwise CAS to `(counter - 1) | REMOVED_MASK`
and return true. -/
def ArenaArc.remove {α : Type} (arc : ArenaArc) (bk : Bucket α) : Bool × Bucket α :=
  let c := (bk.entries.getD arc.index Entry.empty).counter
  if c &&& REMOVED_MASK ≠ 0 then (false, bk)
  else (true, bk.setCounter arc.index ((c - 1) ||| REMOVED_MASK))

/-- bucket.rs `impl Clone for ArenaArc`: `fetch_add(1)` first (u8 wrap), then
panic — modelled as a `none` first component — when the previous refcount
part equalled MAX_REFCNT. -/
def ArenaArc.clone {α : Type} (arc : ArenaArc) (bk : Bucket α) :
    Option ArenaArc × Bucket α :=
  let c := (bk.entries.getD arc.index Entry.empty).counter
  let bk' := bk.setCounter arc.index ((c + 1) % 256)
  if c &&& REFCNT_MASK = MAX_REFCNT then (none, bk')
  else (some ⟨arc.slot, arc.index⟩, bk')

/-- The externally visible effects of the last-drop path of
`impl Drop for ArenaArc`, in source order. -/
inductive DropAction where
  | destroyValue
  | storeZero
  | clearBit
deriving DecidableEq

/-- bucket.rs `impl Drop for ArenaArc`: `fetch_sub(1, Release)`; when the
previous refcount part was 1 — destroy the value in place, store the counter
to 0, then clear the bitmap bit, in that order (returned as the action
trace); otherwise only the decrement happens. -/
def ArenaArc.drop {α : Type} (arc : ArenaArc) (bk : Bucket α) :
    Bucket α × List DropAction :=
  let c := (bk.entries.getD arc.index Entry.empty).counter
  if c &&& MAX_REFCNT = 1 then
    (⟨bk.bitset.deallocate arc.index, bk.entries.set arc.index ⟨0, none⟩⟩,
     [.destroyValue, .storeZero, .clearBit])
  else
    (bk.setCounter arc.index ((c + 255) % 256), [])

/-- arena.rs `Arena<T, BITARRAY_LEN, LEN>`: the RwLock-guarded vector of
shared buckets, value-modelled. -/
structure Arena (α : Type) where
  buckets : List (Bucket α)
deriving DecidableEq

/-- arena.rs `Arena::max_buckets`: `u32::MAX / (LEN as u32)`. -/
def Arena.max_buckets (l : Nat) : Nat := U32_MAX / l

/-- arena.rs `Arena::with_capacity`: `min(cap, max_buckets)` fresh buckets. -/
def Arena.with_capacity (α : Type) (b l cap : Nat) : Arena α :=
  ⟨List.replicate (min cap (Arena.max_buckets l)) (Bucket.new α b l)⟩

/-- arena.rs `Arena::new`: `with_capacity(2)`. -/
def Arena.new (α : Type) (b l : Nat) : Arena α := Arena.with_capacity α b l 2

/-- arena.rs `Arena::len`: number of buckets. -/
def Arena.len {α : Type} (ar : Arena α) : Nat := ar.buckets.length

/-- arena.rs `Arena::is_empty`: `len() == 0`. -/
def Arena.is_empty {α : Type} (ar : Arena α) : Bool := ar.len == 0

/-- The bucket traversal of arena.rs `Arena::try_insert`: try each bucket of
the snapshot in rotated order, passing the rotated position as the
`bucket_index`; a failed bucket hands the value back unchanged. -/
def Arena.tryInsertFrom {α : Type} (ar : Arena α) (value : α)
    (positions : List Nat) (tid l : Nat) :
    Except (α × Nat) (ArenaArc × Arena α) :=
  match positions with
  | [] => .error (value, ar.buckets.length)
  | pos :: rest =>
    match Bucket.try_insert (ar.buckets.getD pos (Bucket.new α 0 0)) pos value tid l with
    | .ok (arc, bk') => .ok (arc, ⟨ar.buckets.set pos bk'⟩)
    | .error v => ar.tryInsertFrom v rest tid l

/-- arena.rs `Arena::try_insert`: empty snapshot fails with `(value, 0)`;
otherwise traverse the snapshot starting at `thread_id % len`; if every
bucket rejects, fail with `(value, len)`. -/
def Arena.try_insert {α : Type} (ar : Arena α) (value : α) (tid l : Nat) :
    Except (α × Nat) (ArenaArc × Arena α) :=
  let n := ar.buckets.length
  if n = 0 then .error (value, 0)
  else ar.tryInsertFrom value (rotatedIndices n (tid % n)) tid l

/-- arena.rs `Arena::try_reserve::<BUFFER_SIZE>` in the uncontended
sequential model (the upgradable read lock is always acquired, so the result
is always true): cap the target at `max_buckets`, and append fresh buckets
up to it. -/
def Arena.try_reserve {α : Type} (ar : Arena α) (b l new_len : Nat) :
    Bool × Arena α :=
  if new_len = 0 then (true, ar)
  else
    let target := min new_len (Arena.max_buckets l)
    let len := ar.buckets.length
    if target ≤ len then (true, ar)
    else (true, ⟨ar.buckets ++ List.replicate (target - len) (Bucket.new α b l)⟩)

/-- The failure branch of the loop body of arena.rs `Arena::insert`: when the
observed length is not `max_buckets`, call `try_reserve::<1>(len + 1)`. -/
def Arena.insertOnFailure {α : Type} (ar : Arena α) (b l len : Nat) : Arena α :=
  if len ≠ Arena.max_buckets l then (ar.try_reserve b l (len + 1)).2 else ar

/-- arena.rs `Arena::insert`: loop `try_insert`, on failure reserve one more
bucket and retry; `fuel` bounds the unbounded source loop. -/
def Arena.insert {α : Type} (fuel : Nat) (ar : Arena α) (value : α)
    (tid b l : Nat) : Option (ArenaArc × Arena α) :=
  match fuel with
  | 0 => none
  | fuel + 1 =>
    match ar.try_insert value tid l with
    | .ok r => some r
    | .error (v, len) => Arena.insert fuel (ar.insertOnFailure b l len) v tid b l

/-- arena.rs `Arena::remove`: decompose the slot and index the snapshot
vector; a bucket index beyond the snapshot is a Rust `Vec` index panic,
modelled as `.error`. -/
def Arena.remove {α : Type} (ar : Arena α) (slot l : Nat) :
    Except Unit (OpResult α) :=
  let bucket_index := slot / l
  let index := slot % l
  match ar.buckets[bucket_index]? with
  | none => .error ()
  | some bk => .ok (Bucket.remove bk bucket_index index l)

/-!
Helper lemmas about list access and the bitmap scan.
-/

theorem getD_mem_or {α : Type} (l : List α) (p : Nat) (d : α) :
    l.getD p d ∈ l ∨ l.getD p d = d := by
  rcases Nat.lt_or_ge p l.length with h | h
  · left
    rw [List.getD_eq_getElem?_getD, List.getElem?_eq_getElem h]
    exact List.getElem_mem h
  · right
    rw [List.getD_eq_getElem?_getD, List.getElem?_eq_none h]
    rfl

theorem mem_rotatedIndices {n pos j : Nat} :
    j ∈ rotatedIndices n pos ↔ j < n := by
  have hperm : List.Perm (rotatedIndices n pos) (List.range n) := by
    unfold rotatedIndices
    exact List.perm_append_comm.trans (by rw [List.take_append_drop])
  rw [hperm.mem_iff, List.mem_range]

theorem findClearBit_some {w i : Nat} (h : findClearBit w = some i) :
    i < WORD_BITS ∧ Nat.testBit w i = false := by
  refine ⟨List.mem_range.1 (List.mem_of_find?_eq_some h), ?_⟩
  have := List.find?_some h
  simpa using this

theorem findClearBit_none {w : Nat} (hw : w < 2 ^ WORD_BITS)
    (h : findClearBit w = none) : w = WORD_MAX := by
  have hall : ∀ i, i < WORD_BITS → Nat.testBit w i = true := by
    intro i hi
    have := List.find?_eq_none.1 h i (List.mem_range.2 hi)
    simpa using this
  show w = 2 ^ WORD_BITS - 1
  apply Nat.eq_of_testBit_eq
  intro i
  rw [Nat.testBit_two_pow_sub_one]
  rcases Nat.lt_or_ge i WORD_BITS with hi | hi
  · simp [hall i hi, hi]
  · have hw' : w < 2 ^ i :=
      Nat.lt_of_lt_of_le hw (Nat.pow_le_pow_right (by norm_num) hi)
    simp [Nat.testBit_lt_two_pow hw', Nat.not_lt_of_ge hi]


theorem allocateFrom_some {positions : List Nat} {bm bm' : BitMap} {i : Nat}
    (hpos : ∀ p ∈ positions, p < bm.words.length)
    (h : BitMap.allocateFrom positions bm = some (i, bm')) :
    i < bm.words.length * WORD_BITS ∧
    bm.load i = false ∧
    bm'.load i = true ∧
    (∀ j, j ≠ i → bm'.load j = bm.load j) ∧
    bm'.words.length = bm.words.length := by
  induction positions with
  | nil => simp [BitMap.allocateFrom] at h
  | cons pos rest ih =>
    simp only [BitMap.allocateFrom] at h
    by_cases hmax : bm.words.getD pos 0 = WORD_MAX
    · rw [if_pos hmax] at h
      exact ih (fun p hp => hpos p (List.mem_cons_of_mem _ hp)) h
    · rw [if_neg hmax] at h
      cases hfind : findClearBit (bm.words.getD pos 0) with
      | none =>
        rw [hfind] at h
        exact ih (fun p hp => hpos p (List.mem_cons_of_mem _ hp)) h
      | some b =>
        rw [hfind] at h
        obtain ⟨hb64, hbclear⟩ := findClearBit_some hfind
        have hposlt : pos < bm.words.length := hpos pos (List.mem_cons_self _ _)
        simp only [Option.some.injEq, Prod.mk.injEq] at h
        obtain ⟨hi, hbm⟩ := h
        subst hi
        subst hbm
        have hdiv : (pos * WORD_BITS + b) / WORD_BITS = pos := by
          simp only [WORD_BITS] at hb64 ⊢; omega
        have hmod : (pos * WORD_BITS + b) % WORD_BITS = b := by
          simp only [WORD_BITS] at hb64 ⊢; omega
        refine ⟨?_, ?_, ?_, ?_, ?_⟩
        · simp only [WORD_BITS] at hb64 ⊢; omega
        · simp only [BitMap.load]
          rw [hdiv, hmod]
          exact hbclear
        · simp only [BitMap.load]
          rw [hdiv, hmod, List.getD_eq_getElem?_getD, List.getElem?_set_self hposlt]
          simp [Nat.testBit_or, Nat.one_shiftLeft, Nat.testBit_two_pow_self]
        · intro j hj
          simp only [BitMap.load]
          by_cases hjw : j / WORD_BITS = pos
          · have hjb : j % WORD_BITS ≠ b := by
              intro hcontra
              apply hj
              simp only [WORD_BITS] at hjw hcontra ⊢
              omega
            rw [hjw, List.getD_eq_getElem?_getD, List.getElem?_set_self hposlt]
            simp only [Option.getD_some, Nat.testBit_or, Nat.one_shiftLeft,
              List.getD_eq_getElem?_getD]
            rw [Nat.testBit_two_pow_of_ne (fun hcontra => hjb hcontra.symm)]
            simp
          · rw [List.getD_eq_getElem?_getD, List.getD_eq_getElem?_getD,
              List.getElem?_set_ne (fun hcontra => hjw hcontra.symm)]
            simp [List.getD_eq_getElem?_getD]
        · simp

theorem allocateFrom_none {positions : List Nat} {bm : BitMap}
    (hw : ∀ w ∈ bm.words, w < 2 ^ WORD_BITS)
    (h : BitMap.allocateFrom positions bm = none) :
    ∀ p ∈ positions, bm.words.getD p 0 = WORD_MAX := by
  induction positions with
  | nil => intro p hp; simp at hp
  | cons pos rest ih =>
    intro p hp
    simp only [BitMap.allocateFrom] at h
    by_cases hmax : bm.words.getD pos 0 = WORD_MAX
    · rw [if_pos hmax] at h
      rcases List.mem_cons.1 hp with hpe | hpr
      · rw [hpe]; exact hmax
      · exact ih h p hpr
    · exfalso
      rw [if_neg hmax] at h
      have hwlt : bm.words.getD pos 0 < 2 ^ WORD_BITS := by
        rcases getD_mem_or bm.words pos 0 with hmem | hzero
        · exact hw _ hmem
        · rw [hzero]; exact Nat.pos_pow_of_pos _ (by norm_num)
      cases hfind : findClearBit (bm.words.getD pos 0) with
      | some b => rw [hfind] at h; exact Option.noConfusion h
      | none => exact hmax (findClearBit_none hwlt hfind)

theorem allocate_some {bm bm' : BitMap} {tid i : Nat}
    (h : bm.allocate tid = some (i, bm')) :
    i < bm.words.length * WORD_BITS ∧ bm.load i = false ∧ bm'.load i = true ∧
    (∀ j, j ≠ i → bm'.load j = bm.load j) ∧ bm'.words.length = bm.words.length :=
  allocateFrom_some (fun _ hp => mem_rotatedIndices.1 hp) h

theorem allocate_none {bm : BitMap} {tid : Nat}
    (hw : ∀ w ∈ bm.words, w < 2 ^ WORD_BITS)
    (h : bm.allocate tid = none) : ∀ w ∈ bm.words, w = WORD_MAX := by
  intro w hwmem
  obtain ⟨p, hp, hpw⟩ := List.getElem_of_mem hwmem
  have hmem : p ∈ rotatedIndices bm.words.length (tid % bm.words.length) :=
    mem_rotatedIndices.2 hp
  have hres := allocateFrom_none hw h p hmem
  rw [List.getD_eq_getElem?_getD, List.getElem?_eq_getElem hp] at hres
  rw [← hpw]
  simpa using hres

/-- C6 (confirmed): `BitMap::allocate` returns `Some i` only for an
`i < B * word_bits` whose bit was clear immediately before the successful CAS
and is set immediately after it, with every other bit unchanged; it returns
`None` only after observing every one of the `B` words to be all-ones. -/
theorem c6_bitmap_allocate (bm : BitMap) (tid : Nat)
    (hw : ∀ w ∈ bm.words, w < 2 ^ WORD_BITS) :
    (∀ i bm', bm.allocate tid = some (i, bm') →
      i < bm.words.length * WORD_BITS ∧
      bm.load i = false ∧ bm'.load i = true ∧
      ∀ j, j ≠ i → bm'.load j = bm.load j) ∧
    (bm.allocate tid = none → ∀ w ∈ bm.words, w = WORD_MAX) := by
  constructor
  · intro i bm' h
    obtain ⟨h1, h2, h3, h4, _⟩ := allocate_some h
    exact ⟨h1, h2, h3, h4⟩
  · intro h
    exact allocate_none hw h

/-- Witness for C6 at the one-word empty bitmap: bit 0 is allocated, was
clear, becomes set, and bit 3 is untouched. -/
theorem c6_witness :
    0 < (BitMap.new 1).words.length * WORD_BITS ∧
    (BitMap.new 1).load 0 = false ∧ (BitMap.mk [1]).load 0 = true ∧
    (BitMap.mk [1]).load 3 = (BitMap.new 1).load 3 := by
  obtain ⟨h1, h2, h3, h4⟩ :=
    (c6_bitmap_allocate (BitMap.new 1) 5 (by decide)).1 0 (BitMap.mk [1]) (by decide)
  exact ⟨h1, h2, h3, h4 3 (by decide)⟩

/-- C1 is refuted by the code: inserting `42` into a fresh bucket stores the
state byte to `2` (one reference for the handle, one for the bucket), so the
fresh handle observes a `strong_count` that is `2`, not `1`. -/
theorem c1_counterexample :
    (match (Bucket.new Nat 1 64).try_insert 0 42 7 64 with
     | .ok (arc, bk) => ArenaArc.strong_count arc bk
     | .error _ => 0) = 2 ∧
    ¬ (match (Bucket.new Nat 1 64).try_insert 0 42 7 64 with
       | .ok (arc, bk) => ArenaArc.strong_count arc bk
       | .error _ => 0) = 1 := by
  constructor <;> decide

/-- C1 amended (proved): after `Bucket::try_insert` successfully allocates a
bitmap bit and writes the value into the cell, it stores the state byte to
`0x02` — one refcount for the handle of the caller and one held by the bucket
itself — so a freshly returned handle observes `strong_count == 2`. -/
theorem c1_amended {α : Type} (bk bk' : Bucket α) (bucket_index : Nat) (value : α)
    (tid l : Nat) (arc : ArenaArc)
    (hlen : bk.entries.length = bk.bitset.words.length * WORD_BITS)
    (h : bk.try_insert bucket_index value tid l = .ok (arc, bk')) :
    (bk'.entries.getD arc.index Entry.empty).counter = 2 ∧
    arc.strong_count bk' = 2 := by
  unfold Bucket.try_insert at h
  cases hall : bk.bitset.allocate tid with
  | none => rw [hall] at h; exact Except.noConfusion h
  | some r =>
    obtain ⟨index, bitset'⟩ := r
    rw [hall] at h
    simp only [Except.ok.injEq, Prod.mk.injEq] at h
    obtain ⟨harc, hbk⟩ := h
    have hidx : index < bk.entries.length := by
      rw [hlen]
      exact (allocate_some hall).1
    have hcnt : (bk'.entries.getD arc.index Entry.empty).counter = 2 := by
      rw [← hbk, ← harc]
      simp only [List.getD_eq_getElem?_getD]
      rw [List.getElem?_set_self hidx]
      rfl
    refine ⟨hcnt, ?_⟩
    unfold ArenaArc.strong_count
    rw [hcnt]
    decide

/-- Witness for the amended C1 at a concrete fresh bucket. -/
theorem c1_witness :
    (ArenaArc.mk 0 0).strong_count
      (Bucket.mk (BitMap.mk [1]) ((List.replicate 64 (Entry.empty : Entry Nat)).set 0 ⟨2, some 42⟩)) = 2 := by
  have h := c1_amended (Bucket.new Nat 1 64)
    (Bucket.mk (BitMap.mk [1]) ((List.replicate 64 (Entry.empty : Entry Nat)).set 0 ⟨2, some 42⟩))
    0 42 7 64 (ArenaArc.mk 0 0) (by decide) (by rfl)
  exact h.2

/-!
Helper lemmas about `setCounter`, `deallocate` and u8 state-byte facts.
-/

theorem getD_default_of_le {α : Type} (l : List α) (j : Nat) (d : α)
    (h : l.length ≤ j) : l.getD j d = d := by
  rw [List.getD_eq_getElem?_getD, List.getElem?_eq_none h]
  rfl

theorem setCounter_bitset {α : Type} (bk : Bucket α) (i c : Nat) :
    (bk.setCounter i c).bitset = bk.bitset := rfl

theorem setCounter_length {α : Type} (bk : Bucket α) (i c : Nat) :
    (bk.setCounter i c).entries.length = bk.entries.length := by
  unfold Bucket.setCounter
  simp

theorem setCounter_getD_self {α : Type} (bk : Bucket α) (i c : Nat)
    (h : i < bk.entries.length) :
    (bk.setCounter i c).entries.getD i Entry.empty =
      ⟨c, (bk.entries.getD i Entry.empty).val⟩ := by
  unfold Bucket.setCounter
  simp only [List.getD_eq_getElem?_getD]
  rw [List.getElem?_set_self h]
  rfl

theorem setCounter_getD_ne {α : Type} (bk : Bucket α) (i j c : Nat) (h : j ≠ i) :
    (bk.setCounter i c).entries.getD j Entry.empty =
      bk.entries.getD j Entry.empty := by
  unfold Bucket.setCounter
  simp only [List.getD_eq_getElem?_getD]
  rw [List.getElem?_set_ne (fun hc => h hc.symm)]

theorem setCounter_val {α : Type} (bk : Bucket α) (i c j : Nat) :
    ((bk.setCounter i c).entries.getD j Entry.empty).val =
      (bk.entries.getD j Entry.empty).val := by
  by_cases hj : j = i
  · subst hj
    by_cases hlt : j < bk.entries.length
    · rw [setCounter_getD_self _ _ _ hlt]
    · unfold Bucket.setCounter
      rw [List.set_eq_of_length_le (Nat.le_of_not_lt hlt)]
  · rw [setCounter_getD_ne _ _ _ _ hj]

theorem or128_and128 (x : Nat) : (x ||| 128) &&& 128 = 128 := by
  rw [show (128:Nat) = 2 ^ 7 from rfl, Nat.and_two_pow]
  have h7 : (x ||| 2 ^ 7).testBit 7 = true := by
    simp only [Nat.testBit_or, Bool.or_eq_true]
    right
    decide
  rw [h7]
  simp

theorem deallocate_load_self (bm : BitMap) (i : Nat) :
    (bm.deallocate i).load i = false := by
  unfold BitMap.deallocate BitMap.load
  dsimp only
  by_cases hlt : i / WORD_BITS < bm.words.length
  · simp only [List.getD_eq_getElem?_getD]
    rw [List.getElem?_set_self hlt]
    simp only [Option.getD_some]
    have hr : i % WORD_BITS < WORD_BITS := Nat.mod_lt _ (by simp [WORD_BITS])
    rw [show WORD_MAX = 2 ^ WORD_BITS - 1 from rfl]
    simp [Nat.testBit_and, Nat.testBit_xor, Nat.one_shiftLeft,
      Nat.testBit_two_pow_self, Nat.testBit_two_pow_sub_one, hr]
  · rw [List.set_eq_of_length_le (Nat.le_of_not_lt hlt),
      getD_default_of_le _ _ _ (Nat.le_of_not_lt hlt)]
    simp

theorem deallocate_load_ne (bm : BitMap) (i j : Nat) (h : j ≠ i) :
    (bm.deallocate i).load j = bm.load j := by
  unfold BitMap.deallocate BitMap.load
  dsimp only
  by_cases hw : j / WORD_BITS = i / WORD_BITS
  · rw [hw]
    by_cases hlt : i / WORD_BITS < bm.words.length
    · simp only [List.getD_eq_getElem?_getD]
      rw [List.getElem?_set_self hlt]
      simp only [Option.getD_some]
      have hjb : j % WORD_BITS ≠ i % WORD_BITS := by
        intro hc
        apply h
        simp only [WORD_BITS] at hw hc
        omega
      have hjlt : j % WORD_BITS < WORD_BITS := Nat.mod_lt _ (by simp [WORD_BITS])
      rw [show WORD_MAX = 2 ^ WORD_BITS - 1 from rfl]
      simp [Nat.testBit_and, Nat.testBit_xor, Nat.one_shiftLeft,
        Nat.testBit_two_pow_sub_one, hjlt, Nat.testBit_two_pow_of_ne (fun hc => hjb hc.symm)]
    · rw [List.set_eq_of_length_le (Nat.le_of_not_lt hlt)]
  · simp only [List.getD_eq_getElem?_getD]
    rw [List.getElem?_set_ne (fun hc => hw hc.symm)]

set_option maxRecDepth 4000 in
theorem u8_live_facts : ∀ c < 256, c &&& 128 = 0 →
    c &&& 127 = c ∧ c < 128 ∧ (2 ≤ c → ((c - 1) ||| 128) &&& 127 = c - 1) := by
  decide

set_option maxRecDepth 4000 in
theorem u8_clone_facts : ∀ c < 256, ¬ c &&& 127 = 127 →
    (c + 1) % 256 = c + 1 ∧ (c + 1) &&& 127 = (c &&& 127) + 1 := by
  decide

theorem bucket_remove_ok {α : Type} {bk bk' : Bucket α} {bi idx l : Nat} {arc : ArenaArc}
    (h : Bucket.remove bk bi idx l = .ok arc bk') :
    bk.bitset.load idx = true ∧
    (bk.entries.getD idx Entry.empty).counter &&& REMOVED_MASK = 0 ∧
    (bk.entries.getD idx Entry.empty).counter ≠ 0 ∧
    bk' = bk.setCounter idx ((bk.entries.getD idx Entry.empty).counter ||| REMOVED_MASK) ∧
    arc = ⟨bi * l + idx, idx⟩ := by
  unfold Bucket.remove at h
  by_cases hload : bk.bitset.load idx
  · rw [if_pos hload] at h
    dsimp only at h
    by_cases htomb : (bk.entries.getD idx Entry.empty).counter &&& REMOVED_MASK ≠ 0
    · rw [if_pos htomb] at h
      exact OpResult.noConfusion h
    · rw [if_neg htomb] at h
      by_cases hzero : (bk.entries.getD idx Entry.empty).counter = 0
      · rw [if_pos hzero] at h
        exact OpResult.noConfusion h
      · rw [if_neg hzero] at h
        have := OpResult.ok.inj h
        exact ⟨hload, Decidable.not_not.1 htomb, hzero, this.2.symm, this.1.symm⟩
  · rw [if_neg hload] at h
    exact OpResult.noConfusion h

theorem bucket_get_ok {α : Type} {bk bk' : Bucket α} {bi idx l : Nat} {arc : ArenaArc}
    (h : Bucket.get bk bi idx l = .ok arc bk') :
    bk.bitset.load idx = true ∧
    (bk.entries.getD idx Entry.empty).counter &&& REMOVED_MASK = 0 ∧
    (bk.entries.getD idx Entry.empty).counter ≠ 0 ∧
    bk' = bk.setCounter idx ((bk.entries.getD idx Entry.empty).counter + 1) ∧
    arc = ⟨bi * l + idx, idx⟩ := by
  unfold Bucket.get at h
  by_cases hload : bk.bitset.load idx
  · rw [if_pos hload] at h
    dsimp only at h
    by_cases htomb : (bk.entries.getD idx Entry.empty).counter &&& REMOVED_MASK ≠ 0
    · rw [if_pos htomb] at h
      exact OpResult.noConfusion h
    · rw [if_neg htomb] at h
      by_cases hzero : (bk.entries.getD idx Entry.empty).counter = 0
      · rw [if_pos hzero] at h
        exact OpResult.noConfusion h
      · rw [if_neg hzero] at h
        have := OpResult.ok.inj h
        exact ⟨hload, Decidable.not_not.1 htomb, hzero, this.2.symm, this.1.symm⟩
  · rw [if_neg hload] at h
    exact OpResult.noConfusion h

theorem try_insert_ok {α : Type} {bk bk' : Bucket α} {bi : Nat} {v : α} {tid l : Nat}
    {arc : ArenaArc}
    (h : bk.try_insert bi v tid l = .ok (arc, bk')) :
    ∃ index bitset', bk.bitset.allocate tid = some (index, bitset') ∧
      arc = ⟨bi * l + index, index⟩ ∧
      bk' = ⟨bitset', bk.entries.set index ⟨2, some v⟩⟩ := by
  unfold Bucket.try_insert at h
  cases hall : bk.bitset.allocate tid with
  | none => rw [hall] at h; exact Except.noConfusion h
  | some r =>
    obtain ⟨index, bitset'⟩ := r
    rw [hall] at h
    simp only [Except.ok.injEq, Prod.mk.injEq] at h
    exact ⟨index, bitset', rfl, h.1.symm, h.2.symm⟩

/-- A tombstoned entry rejects every lookup and removal: `get` and `remove`
return none, and `ArenaArc::remove` returns false, leaving the bucket as is. -/
theorem tombstoned_ops {α : Type} (bk : Bucket α) (idx : Nat)
    (htomb : (bk.entries.getD idx Entry.empty).counter &&& REMOVED_MASK ≠ 0) :
    (∀ bi l, Bucket.get bk bi idx l = .miss) ∧
    (∀ bi l, Bucket.remove bk bi idx l = .miss) ∧
    (∀ s, ArenaArc.remove ⟨s, idx⟩ bk = (false, bk)) := by
  refine ⟨fun bi l => ?_, fun bi l => ?_, fun s => ?_⟩
  · unfold Bucket.get
    by_cases hload : bk.bitset.load idx
    · rw [if_pos hload]
      dsimp only
      rw [if_pos htomb]
    · rw [if_neg hload]
  · unfold Bucket.remove
    by_cases hload : bk.bitset.load idx
    · rw [if_pos hload]
      dsimp only
      rw [if_pos htomb]
    · rw [if_neg hload]
  · unfold ArenaArc.remove
    dsimp only
    rw [if_pos htomb]

/-- A removal attempt on entry `idx` of a bucket: either through
`Bucket::remove` (with some bucket index and `LEN`) or through
`ArenaArc::remove` on an outstanding handle (with some slot id). -/
inductive RemoveKind where
  | viaBucket (bucket_index l : Nat)
  | viaHandle (slot : Nat)
deriving DecidableEq

/-- Run one removal attempt, returning whether it won together with the
bucket state it leaves behind. -/
def removeAttempt {α : Type} (k : RemoveKind) (idx : Nat) (bk : Bucket α) :
    Bool × Bucket α :=
  match k with
  | .viaBucket bi l =>
    match Bucket.remove bk bi idx l with
    | .ok _ bk' => (true, bk')
    | .miss => (false, bk)
    | .stuck => (false, bk)
  | .viaHandle s => ArenaArc.remove ⟨s, idx⟩ bk

/-- Number of successful attempts in a sequence of removal attempts run
left to right on one slot. -/
def countRemoveWins {α : Type} (ks : List RemoveKind) (idx : Nat) (bk : Bucket α) : Nat :=
  match ks with
  | [] => 0
  | k :: rest =>
    let r := removeAttempt k idx bk
    (if r.1 then 1 else 0) + countRemoveWins rest idx r.2

theorem attempt_tombstoned {α : Type} (k : RemoveKind) (idx : Nat) (bk : Bucket α)
    (htomb : (bk.entries.getD idx Entry.empty).counter &&& REMOVED_MASK ≠ 0) :
    removeAttempt k idx bk = (false, bk) := by
  obtain ⟨hget, hrem, hhrem⟩ := tombstoned_ops bk idx htomb
  cases k with
  | viaBucket bi l =>
    simp only [removeAttempt]
    rw [hrem bi l]
  | viaHandle s =>
    simp only [removeAttempt]
    exact hhrem s

theorem countRemoveWins_tombstoned {α : Type} (ks : List RemoveKind) (idx : Nat)
    (bk : Bucket α)
    (htomb : (bk.entries.getD idx Entry.empty).counter &&& REMOVED_MASK ≠ 0) :
    countRemoveWins ks idx bk = 0 := by
  induction ks with
  | nil => rfl
  | cons k rest ih =>
    unfold countRemoveWins
    rw [attempt_tombstoned k idx bk htomb]
    simpa using ih

theorem attempt_live {α : Type} (k : RemoveKind) (idx : Nat) (bk : Bucket α)
    (hidx : idx < bk.entries.length)
    (hbit : bk.bitset.load idx = true)
    (hlive : (bk.entries.getD idx Entry.empty).counter &&& REMOVED_MASK = 0)
    (hpos : (bk.entries.getD idx Entry.empty).counter ≠ 0) :
    (removeAttempt k idx bk).1 = true ∧
    (((removeAttempt k idx bk).2.entries.getD idx Entry.empty).counter &&& REMOVED_MASK ≠ 0) := by
  cases k with
  | viaBucket bi l =>
    simp only [removeAttempt]
    unfold Bucket.remove
    rw [if_pos hbit]
    dsimp only
    rw [if_neg (fun hc => hc hlive), if_neg hpos]
    dsimp only
    rw [setCounter_getD_self _ _ _ hidx]
    refine ⟨rfl, ?_⟩
    show ((bk.entries.getD idx Entry.empty).counter ||| REMOVED_MASK) &&& REMOVED_MASK ≠ 0
    show ((bk.entries.getD idx Entry.empty).counter ||| 128) &&& 128 ≠ 0
    rw [or128_and128]
    norm_num
  | viaHandle s =>
    simp only [removeAttempt]
    unfold ArenaArc.remove
    dsimp only
    rw [if_neg (fun hc => hc hlive)]
    dsimp only
    rw [setCounter_getD_self _ _ _ hidx]
    refine ⟨rfl, ?_⟩
    show (((bk.entries.getD idx Entry.empty).counter - 1) ||| 128) &&& 128 ≠ 0
    rw [or128_and128]
    norm_num

/-- C4 (confirmed): once a removal of a live slot has succeeded (setting the
tombstone bit), every subsequent `Bucket::remove` on that slot returns none,
every `Bucket::get` returns none, and `ArenaArc::remove` on any outstanding
handle returns false — so of any number of removal attempts run on one live
slot, exactly one succeeds. -/
theorem c4_single_remove_winner {α : Type} (bk : Bucket α) (idx : Nat)
    (hidx : idx < bk.entries.length)
    (hbit : bk.bitset.load idx = true)
    (hlive : (bk.entries.getD idx Entry.empty).counter &&& REMOVED_MASK = 0)
    (hpos : (bk.entries.getD idx Entry.empty).counter ≠ 0) :
    (∀ bi l arc bk', Bucket.remove bk bi idx l = .ok arc bk' →
      (∀ bi2 l2, Bucket.remove bk' bi2 idx l2 = .miss) ∧
      (∀ bi2 l2, Bucket.get bk' bi2 idx l2 = .miss) ∧
      (∀ s, ArenaArc.remove ⟨s, idx⟩ bk' = (false, bk'))) ∧
    (∀ k ks, countRemoveWins (k :: ks) idx bk = 1) := by
  constructor
  · intro bi l arc bk' h
    obtain ⟨_, _, _, hbk', _⟩ := bucket_remove_ok h
    have htomb : (bk'.entries.getD idx Entry.empty).counter &&& REMOVED_MASK ≠ 0 := by
      rw [hbk', setCounter_getD_self _ _ _ hidx]
      show ((bk.entries.getD idx Entry.empty).counter ||| 128) &&& 128 ≠ 0
      rw [or128_and128]
      norm_num
    obtain ⟨hget, hrem, hh⟩ := tombstoned_ops bk' idx htomb
    exact ⟨hrem, hget, hh⟩
  · intro k ks
    obtain ⟨hwin, htomb⟩ := attempt_live k idx bk hidx hbit hlive hpos
    unfold countRemoveWins
    dsimp only
    rw [hwin, countRemoveWins_tombstoned ks idx _ htomb]
    simp

/-- Witness for C4 on a concrete one-element live bucket: a bucket-level
remove followed by a handle-level remove has exactly one winner. -/
theorem c4_witness :
    countRemoveWins [RemoveKind.viaBucket 0 64, RemoveKind.viaHandle 5] 0
      (Bucket.mk (BitMap.mk [1])
        ((List.replicate 64 (Entry.empty : Entry Nat)).set 0 ⟨2, some 42⟩)) = 1 := by
  exact (c4_single_remove_winner
    (Bucket.mk (BitMap.mk [1])
      ((List.replicate 64 (Entry.empty : Entry Nat)).set 0 ⟨2, some 42⟩)) 0
    (by decide) (by decide) (by decide) (by decide)).2
    (RemoveKind.viaBucket 0 64) [RemoveKind.viaHandle 5]

/-- C8 (confirmed): `ArenaArc::remove` on a live (non-tombstoned) handle sets
the tombstone bit and decrements the refcount in one CAS —
`new = (old - 1) | 0x80` — and returns true; it requires refcount ≥ 2 at
entry (the handle itself holds one reference), and afterwards the refcount
field is exactly one less than before. -/
theorem c8_handle_remove {α : Type} (arc : ArenaArc) (bk : Bucket α)
    (hidx : arc.index < bk.entries.length)
    (hlt : (bk.entries.getD arc.index Entry.empty).counter < 256)
    (hlive : (bk.entries.getD arc.index Entry.empty).counter &&& REMOVED_MASK = 0)
    (h2 : 2 ≤ (bk.entries.getD arc.index Entry.empty).counter) :
    arc.remove bk =
      (true, bk.setCounter arc.index
        (((bk.entries.getD arc.index Entry.empty).counter - 1) ||| REMOVED_MASK)) ∧
    arc.strong_count (arc.remove bk).2 = arc.strong_count bk - 1 ∧
    arc.strong_count bk = (bk.entries.getD arc.index Entry.empty).counter ∧
    arc.is_removed (arc.remove bk).2 = true := by
  obtain ⟨hmask, hlt128, hdec⟩ :=
    u8_live_facts (bk.entries.getD arc.index Entry.empty).counter hlt hlive
  have hremove : arc.remove bk =
      (true, bk.setCounter arc.index
        (((bk.entries.getD arc.index Entry.empty).counter - 1) ||| REMOVED_MASK)) := by
    unfold ArenaArc.remove
    dsimp only
    rw [if_neg (fun hc => hc hlive)]
  have hcnt : (((arc.remove bk).2).entries.getD arc.index Entry.empty).counter =
      ((bk.entries.getD arc.index Entry.empty).counter - 1) ||| REMOVED_MASK := by
    rw [hremove, setCounter_getD_self _ _ _ hidx]
  refine ⟨hremove, ?_, ?_, ?_⟩
  · unfold ArenaArc.strong_count
    rw [hcnt]
    simp only [REMOVED_MASK, REFCNT_MASK]
    rw [hdec h2, hmask]
  · unfold ArenaArc.strong_count
    exact hmask
  · unfold ArenaArc.is_removed
    rw [hcnt]
    simp only [REMOVED_MASK]
    simp [or128_and128]

/-- Witness for C8 on a live entry with refcount 2. -/
theorem c8_witness :
    (ArenaArc.mk 0 0).remove
      (Bucket.mk (BitMap.mk [1])
        ((List.replicate 64 (Entry.empty : Entry Nat)).set 0 ⟨2, some 42⟩)) =
      (true, (Bucket.mk (BitMap.mk [1])
        ((List.replicate 64 (Entry.empty : Entry Nat)).set 0 ⟨2, some 42⟩)).setCounter 0
          (1 ||| REMOVED_MASK)) := by
  exact (c8_handle_remove (ArenaArc.mk 0 0)
    (Bucket.mk (BitMap.mk [1])
      ((List.replicate 64 (Entry.empty : Entry Nat)).set 0 ⟨2, some 42⟩))
    (by decide) (by decide) (by decide) (by decide)).1

/-- C9 (confirmed): cloning a handle whose slot refcount field is at the
maximum 127 panics; otherwise clone increments the refcount field by exactly
one and returns a handle with the same slot and entry index, and the
refcount field never exceeds 127. -/
theorem c9_clone {α : Type} (arc : ArenaArc) (bk : Bucket α)
    (hidx : arc.index < bk.entries.length)
    (hlt : (bk.entries.getD arc.index Entry.empty).counter < 256) :
    ((bk.entries.getD arc.index Entry.empty).counter &&& REFCNT_MASK = MAX_REFCNT →
      (arc.clone bk).1 = none) ∧
    ((bk.entries.getD arc.index Entry.empty).counter &&& REFCNT_MASK ≠ MAX_REFCNT →
      (arc.clone bk).1 = some ⟨arc.slot, arc.index⟩ ∧
      ((arc.clone bk).2.entries.getD arc.index Entry.empty).counter =
        (bk.entries.getD arc.index Entry.empty).counter + 1 ∧
      arc.strong_count (arc.clone bk).2 = arc.strong_count bk + 1) ∧
    arc.strong_count bk ≤ 127 := by
  refine ⟨?_, ?_, Nat.and_le_right⟩
  · intro hmax
    unfold ArenaArc.clone
    dsimp only
    rw [if_pos hmax]
  · intro hne
    obtain ⟨hnowrap, hinc⟩ :=
      u8_clone_facts (bk.entries.getD arc.index Entry.empty).counter hlt hne
    have hclone : (arc.clone bk).1 = some ⟨arc.slot, arc.index⟩ ∧
        (arc.clone bk).2 = bk.setCounter arc.index
          (((bk.entries.getD arc.index Entry.empty).counter + 1) % 256) := by
      unfold ArenaArc.clone
      dsimp only
      rw [if_neg hne]
      exact ⟨rfl, rfl⟩
    have hcnt : ((arc.clone bk).2.entries.getD arc.index Entry.empty).counter =
        (bk.entries.getD arc.index Entry.empty).counter + 1 := by
      rw [hclone.2, setCounter_getD_self _ _ _ hidx]
      exact hnowrap
    refine ⟨hclone.1, hcnt, ?_⟩
    unfold ArenaArc.strong_count
    rw [hcnt]
    exact hinc

/-- Witness for C9: cloning a handle with refcount 2 yields refcount 3, and
the panic branch fires on a refcount-127 entry. -/
theorem c9_witness :
    ((ArenaArc.mk 0 0).clone
      (Bucket.mk (BitMap.mk [1])
        ((List.replicate 64 (Entry.empty : Entry Nat)).set 0 ⟨2, some 42⟩))).1 =
      some (ArenaArc.mk 0 0) ∧
    ((ArenaArc.mk 0 0).clone
      (Bucket.mk (BitMap.mk [1])
        ((List.replicate 64 (Entry.empty : Entry Nat)).set 0 ⟨127, some 42⟩))).1 = none := by
  constructor
  · exact ((c9_clone (ArenaArc.mk 0 0)
      (Bucket.mk (BitMap.mk [1])
        ((List.replicate 64 (Entry.empty : Entry Nat)).set 0 ⟨2, some 42⟩))
      (by decide) (by decide)).2.1 (by decide)).1
  · exact (c9_clone (ArenaArc.mk 0 0)
      (Bucket.mk (BitMap.mk [1])
        ((List.replicate 64 (Entry.empty : Entry Nat)).set 0 ⟨127, some 42⟩))
      (by decide) (by decide)).1 (by decide)

/-- The operations of bucket.rs that can touch the state of a bucket, used to
state that only the last-drop path destroys values and clears bitmap bits. -/
inductive BucketOp (α : Type) where
  | opTryInsert (bucket_index : Nat) (value : α) (tid l : Nat)
  | opGet (bucket_index index l : Nat)
  | opRemove (bucket_index index l : Nat)
  | opClone (arc : ArenaArc)
  | opHandleRemove (arc : ArenaArc)
  | opDrop (arc : ArenaArc)

/-- The bucket state left behind by one bucket.rs operation. -/
def applyOp {α : Type} : BucketOp α → Bucket α → Bucket α
  | .opTryInsert bi v tid l, bk =>
    match bk.try_insert bi v tid l with
    | .ok (_, bk') => bk'
    | .error _ => bk
  | .opGet bi idx l, bk =>
    match bk.get bi idx l with
    | .ok _ bk' => bk'
    | .miss => bk
    | .stuck => bk
  | .opRemove bi idx l, bk =>
    match bk.remove bi idx l with
    | .ok _ bk' => bk'
    | .miss => bk
    | .stuck => bk
  | .opClone arc, bk => (arc.clone bk).2
  | .opHandleRemove arc, bk => (arc.remove bk).2
  | .opDrop arc, bk => (arc.drop bk).1

/-- `op` is a handle drop on entry `j` that observed the previous state byte
`0x80 ||| 1` (tombstoned, last reference). -/
def finalDropAt {α : Type} (op : BucketOp α) (bk : Bucket α) (j : Nat) : Prop :=
  ∃ arc : ArenaArc, op = BucketOp.opDrop arc ∧ arc.index = j ∧
    (bk.entries.getD j Entry.empty).counter = REMOVED_MASK ||| 1

theorem clone_snd {α : Type} (arc : ArenaArc) (bk : Bucket α) :
    (arc.clone bk).2 = bk.setCounter arc.index
      (((bk.entries.getD arc.index Entry.empty).counter + 1) % 256) := by
  unfold ArenaArc.clone
  dsimp only
  split <;> rfl

theorem handleRemove_snd_bitset {α : Type} (arc : ArenaArc) (bk : Bucket α) :
    (arc.remove bk).2.bitset = bk.bitset := by
  unfold ArenaArc.remove
  dsimp only
  split <;> rfl

theorem handleRemove_snd_val {α : Type} (arc : ArenaArc) (bk : Bucket α) (j : Nat) :
    ((arc.remove bk).2.entries.getD j Entry.empty).val =
      (bk.entries.getD j Entry.empty).val := by
  unfold ArenaArc.remove
  dsimp only
  split
  · rfl
  · exact setCounter_val _ _ _ _

theorem drop_destroy {α : Type} (arc : ArenaArc) (bk : Bucket α)
    (h : (bk.entries.getD arc.index Entry.empty).counter &&& MAX_REFCNT = 1) :
    arc.drop bk =
      (⟨bk.bitset.deallocate arc.index, bk.entries.set arc.index ⟨0, none⟩⟩,
       [DropAction.destroyValue, DropAction.storeZero, DropAction.clearBit]) := by
  unfold ArenaArc.drop
  dsimp only
  rw [if_pos h]

theorem drop_keep {α : Type} (arc : ArenaArc) (bk : Bucket α)
    (h : ¬ (bk.entries.getD arc.index Entry.empty).counter &&& MAX_REFCNT = 1) :
    arc.drop bk = (bk.setCounter arc.index
      (((bk.entries.getD arc.index Entry.empty).counter + 255) % 256), []) := by
  unfold ArenaArc.drop
  dsimp only
  rw [if_neg h]

theorem applyOp_get_bitset {α : Type} (bk : Bucket α) (bi idx l : Nat) :
    (applyOp (BucketOp.opGet bi idx l) bk).bitset = bk.bitset := by
  simp only [applyOp]
  cases hres : bk.get bi idx l with
  | ok arc bk' =>
    dsimp only
    obtain ⟨_, _, _, hbk', _⟩ := bucket_get_ok hres
    rw [hbk']
    rfl
  | miss => rfl
  | stuck => rfl

theorem applyOp_get_val {α : Type} (bk : Bucket α) (bi idx l j : Nat) :
    ((applyOp (BucketOp.opGet bi idx l) bk).entries.getD j Entry.empty).val =
      (bk.entries.getD j Entry.empty).val := by
  simp only [applyOp]
  cases hres : bk.get bi idx l with
  | ok arc bk' =>
    dsimp only
    obtain ⟨_, _, _, hbk', _⟩ := bucket_get_ok hres
    rw [hbk']
    exact setCounter_val _ _ _ _
  | miss => rfl
  | stuck => rfl

theorem applyOp_remove_bitset {α : Type} (bk : Bucket α) (bi idx l : Nat) :
    (applyOp (BucketOp.opRemove bi idx l) bk).bitset = bk.bitset := by
  simp only [applyOp]
  cases hres : bk.remove bi idx l with
  | ok arc bk' =>
    dsimp only
    obtain ⟨_, _, _, hbk', _⟩ := bucket_remove_ok hres
    rw [hbk']
    rfl
  | miss => rfl
  | stuck => rfl

theorem applyOp_remove_val {α : Type} (bk : Bucket α) (bi idx l j : Nat) :
    ((applyOp (BucketOp.opRemove bi idx l) bk).entries.getD j Entry.empty).val =
      (bk.entries.getD j Entry.empty).val := by
  simp only [applyOp]
  cases hres : bk.remove bi idx l with
  | ok arc bk' =>
    dsimp only
    obtain ⟨_, _, _, hbk', _⟩ := bucket_remove_ok hres
    rw [hbk']
    exact setCounter_val _ _ _ _
  | miss => rfl
  | stuck => rfl

/-- C5 (confirmed): the value stored in an entry is destroyed, and the
bitmap bit of the entry cleared, only by a handle drop that observes the previous
state byte `0x80 | 1` (tombstone with refcount one); that drop destroys the
value in place, then stores the state byte to 0, then clears the bitmap bit,
in that order, and no other bucket.rs operation destroys the value or clears
the bit.  The hypothesis `hassert` is the debug assertion of the drop path,
`prev_counter == REMOVED_MASK | 1`. -/
theorem c5_destruction {α : Type} (bk : Bucket α) (op : BucketOp α) (j : Nat)
    (hwf : ∀ i, i < bk.entries.length → bk.bitset.load i = false →
      bk.entries.getD i Entry.empty = Entry.empty)
    (hassert : ∀ arc : ArenaArc, op = BucketOp.opDrop arc →
      (bk.entries.getD arc.index Entry.empty).counter &&& MAX_REFCNT = 1 →
      (bk.entries.getD arc.index Entry.empty).counter = REMOVED_MASK ||| 1) :
    (bk.bitset.load j = true → (applyOp op bk).bitset.load j = false →
      finalDropAt op bk j) ∧
    (∀ x, (bk.entries.getD j Entry.empty).val = some x →
      ((applyOp op bk).entries.getD j Entry.empty).val = some x ∨ finalDropAt op bk j) ∧
    (∀ arc : ArenaArc, op = BucketOp.opDrop arc → arc.index = j →
      (bk.entries.getD j Entry.empty).counter = REMOVED_MASK ||| 1 →
      (arc.drop bk).2 =
        [DropAction.destroyValue, DropAction.storeZero, DropAction.clearBit] ∧
      (applyOp op bk).entries.getD j Entry.empty = Entry.empty ∧
      (applyOp op bk).bitset.load j = false) := by
  cases op with
  | opTryInsert bi v tid l =>
    simp only [applyOp]
    cases hres : bk.try_insert bi v tid l with
    | error v' =>
      dsimp only
      refine ⟨?_, ?_, fun arc heq => BucketOp.noConfusion heq⟩
      · intro hb ha
        rw [hb] at ha
        exact Bool.noConfusion ha
      · intro x hx
        exact Or.inl hx
    | ok r =>
      obtain ⟨arc0, bk'⟩ := r
      dsimp only
      obtain ⟨index, bitset', hall, harc0, hbk'⟩ := try_insert_ok hres
      obtain ⟨hlt, hbefore, hafter, hother, hlen⟩ := allocate_some hall
      refine ⟨?_, ?_, fun arc heq => BucketOp.noConfusion heq⟩
      · intro hb ha
        exfalso
        by_cases hji : j = index
        · subst hji
          rw [hb] at hbefore
          exact Bool.noConfusion hbefore
        · rw [hbk'] at ha
          dsimp only at ha
          rw [hother j hji] at ha
          rw [hb] at ha
          exact Bool.noConfusion ha
      · intro x hx
        by_cases hji : j = index
        · subst hji
          by_cases hjlen : j < bk.entries.length
          · exfalso
            have hempty := hwf j hjlen hbefore
            rw [hempty] at hx
            exact Option.noConfusion hx
          · left
            rw [hbk']
            dsimp only
            rw [List.set_eq_of_length_le (Nat.le_of_not_lt hjlen)]
            exact hx
        · left
          rw [hbk']
          dsimp only
          simp only [List.getD_eq_getElem?_getD]
          rw [List.getElem?_set_ne (fun hc => hji hc.symm)]
          simp only [List.getD_eq_getElem?_getD] at hx
          exact hx
  | opGet bi idx l =>
    refine ⟨?_, ?_, fun arc heq => BucketOp.noConfusion heq⟩
    · intro hb ha
      rw [applyOp_get_bitset] at ha
      rw [hb] at ha
      exact Bool.noConfusion ha
    · intro x hx
      left
      rw [applyOp_get_val]
      exact hx
  | opRemove bi idx l =>
    refine ⟨?_, ?_, fun arc heq => BucketOp.noConfusion heq⟩
    · intro hb ha
      rw [applyOp_remove_bitset] at ha
      rw [hb] at ha
      exact Bool.noConfusion ha
    · intro x hx
      left
      rw [applyOp_remove_val]
      exact hx
  | opClone arc =>
    refine ⟨?_, ?_, fun arc' heq => BucketOp.noConfusion heq⟩
    · intro hb ha
      simp only [applyOp] at ha
      rw [clone_snd, setCounter_bitset] at ha
      rw [hb] at ha
      exact Bool.noConfusion ha
    · intro x hx
      left
      simp only [applyOp]
      rw [clone_snd, setCounter_val]
      exact hx
  | opHandleRemove arc =>
    refine ⟨?_, ?_, fun arc' heq => BucketOp.noConfusion heq⟩
    · intro hb ha
      simp only [applyOp] at ha
      rw [handleRemove_snd_bitset] at ha
      rw [hb] at ha
      exact Bool.noConfusion ha
    · intro x hx
      left
      simp only [applyOp]
      rw [handleRemove_snd_val]
      exact hx
  | opDrop arc =>
    by_cases hone : (bk.entries.getD arc.index Entry.empty).counter &&& MAX_REFCNT = 1
    · have hstate := hassert arc rfl hone
      have hdrop := drop_destroy arc bk hone
      refine ⟨?_, ?_, ?_⟩
      · intro hb ha
        simp only [applyOp] at ha
        rw [hdrop] at ha
        dsimp only at ha
        by_cases hji : j = arc.index
        · exact ⟨arc, rfl, hji.symm, by rw [hji]; exact hstate⟩
        · exfalso
          rw [deallocate_load_ne _ _ _ (fun hc => hji hc)] at ha
          rw [hb] at ha
          exact Bool.noConfusion ha
      · intro x hx
        by_cases hji : j = arc.index
        · right
          exact ⟨arc, rfl, hji.symm, by rw [hji]; exact hstate⟩
        · left
          simp only [applyOp]
          rw [hdrop]
          dsimp only
          simp only [List.getD_eq_getElem?_getD]
          rw [List.getElem?_set_ne (fun hc => hji hc.symm)]
          simp only [List.getD_eq_getElem?_getD] at hx
          exact hx
      · intro arc' heq hidx hcnt
        injection heq with h
        subst h
        have hjlen : j < bk.entries.length := by
          by_contra hcon
          rw [getD_default_of_le _ _ _ (Nat.le_of_not_lt hcon)] at hcnt
          simp [Entry.empty, REMOVED_MASK] at hcnt
        refine ⟨by rw [hdrop], ?_, ?_⟩
        · simp only [applyOp]
          rw [hdrop]
          dsimp only
          rw [← hidx]
          simp only [List.getD_eq_getElem?_getD]
          rw [List.getElem?_set_self (by rw [hidx]; exact hjlen)]
          rfl
        · simp only [applyOp]
          rw [hdrop]
          dsimp only
          rw [← hidx]
          exact deallocate_load_self _ _
    · have hdrop := drop_keep arc bk hone
      refine ⟨?_, ?_, ?_⟩
      · intro hb ha
        exfalso
        simp only [applyOp] at ha
        rw [hdrop] at ha
        dsimp only at ha
        rw [setCounter_bitset] at ha
        rw [hb] at ha
        exact Bool.noConfusion ha
      · intro x hx
        left
        simp only [applyOp]
        rw [hdrop]
        dsimp only
        rw [setCounter_val]
        exact hx
      · intro arc' heq hidx hcnt
        exfalso
        injection heq with h
        subst h
        apply hone
        rw [← hidx] at hcnt
        rw [hcnt]
        decide

/-- Witness for C5 at a concrete tombstoned entry with refcount 1
(state byte `0x81`): the last drop emits destroy, store-zero, clear-bit in
that order and leaves the entry empty with its bit clear. -/
theorem c5_witness :
    ((ArenaArc.mk 0 0).drop
      (Bucket.mk (BitMap.mk [1])
        ((List.replicate 64 (Entry.empty : Entry Nat)).set 0 ⟨129, some 42⟩))).2 =
      [DropAction.destroyValue, DropAction.storeZero, DropAction.clearBit] ∧
    (applyOp (BucketOp.opDrop (ArenaArc.mk 0 0))
      (Bucket.mk (BitMap.mk [1])
        ((List.replicate 64 (Entry.empty : Entry Nat)).set 0 ⟨129, some 42⟩))).entries.getD 0
        Entry.empty = Entry.empty ∧
    (applyOp (BucketOp.opDrop (ArenaArc.mk 0 0))
      (Bucket.mk (BitMap.mk [1])
        ((List.replicate 64 (Entry.empty : Entry Nat)).set 0 ⟨129, some 42⟩))).bitset.load 0 =
      false := by
  have h := c5_destruction
    (Bucket.mk (BitMap.mk [1])
      ((List.replicate 64 (Entry.empty : Entry Nat)).set 0 ⟨129, some 42⟩))
    (BucketOp.opDrop (ArenaArc.mk 0 0)) 0
    (by decide)
    (by
      intro arc' heq hone
      injection heq with h
      rw [← h]
      decide)
  exact h.2.2 (ArenaArc.mk 0 0) rfl rfl (by decide)

theorem getD_mem_of_lt {α : Type} (l : List α) (p : Nat) (d : α)
    (h : p < l.length) : l.getD p d ∈ l := by
  rw [List.getD_eq_getElem?_getD, List.getElem?_eq_getElem h]
  exact List.getElem_mem h

theorem tryInsertFrom_all_fail {α : Type} (positions : List Nat) (ar : Arena α)
    (value : α) (tid l : Nat)
    (hfail : ∀ bk ∈ ar.buckets, bk.bitset.allocate tid = none)
    (hpos : ∀ p ∈ positions, p < ar.buckets.length) :
    ar.tryInsertFrom value positions tid l = .error (value, ar.buckets.length) := by
  induction positions with
  | nil => rfl
  | cons pos rest ih =>
    simp only [Arena.tryInsertFrom]
    have hplt : pos < ar.buckets.length := hpos pos (List.mem_cons_self _ _)
    have hbk := hfail _ (getD_mem_of_lt ar.buckets pos (Bucket.new α 0 0) hplt)
    have hins : Bucket.try_insert (ar.buckets.getD pos (Bucket.new α 0 0)) pos value tid l =
        .error value := by
      unfold Bucket.try_insert
      rw [hbk]
    rw [hins]
    exact ih (fun p hp => hpos p (List.mem_cons_of_mem _ hp))

/-- C7 (confirmed): `Arena::try_insert` on an empty snapshot fails with the
value paired with length 0 without any bucket insertion, and when every
bucket of the snapshot rejects the insertion it fails with the original
value paired with the snapshot length — the caller gets the value back
unchanged in both cases. -/
theorem c7_try_insert_failure {α : Type} (ar : Arena α) (value : α) (tid l : Nat) :
    (ar.buckets.length = 0 → ar.try_insert value tid l = .error (value, 0)) ∧
    ((∀ bk ∈ ar.buckets, bk.bitset.allocate tid = none) →
      ar.try_insert value tid l = .error (value, ar.buckets.length)) := by
  constructor
  · intro h0
    unfold Arena.try_insert
    dsimp only
    rw [if_pos h0]
  · intro hfail
    unfold Arena.try_insert
    dsimp only
    by_cases h0 : ar.buckets.length = 0
    · rw [if_pos h0, h0]
    · rw [if_neg h0]
      exact tryInsertFrom_all_fail _ _ _ _ _ hfail (fun p hp => mem_rotatedIndices.1 hp)

/-- Witness for C7: the empty arena fails with `(9, 0)`; a one-bucket arena
whose bitmap word is all-ones fails with `(9, 1)`. -/
theorem c7_witness :
    (Arena.with_capacity Nat 1 64 0).try_insert 9 3 64 = .error (9, 0) ∧
    (Arena.mk [Bucket.mk (BitMap.mk [WORD_MAX])
        (List.replicate 64 (Entry.empty : Entry Nat))]).try_insert 9 3 64 =
      .error (9, 1) := by
  constructor
  · exact (c7_try_insert_failure _ 9 3 64).1 (by decide)
  · have h := (c7_try_insert_failure
      (Arena.mk [Bucket.mk (BitMap.mk [WORD_MAX])
        (List.replicate 64 (Entry.empty : Entry Nat))]) 9 3 64).2 (by
        intro bk hbk
        simp only [List.mem_singleton] at hbk
        rw [hbk]
        decide)
    exact h

/-- C2 as stated is false: `Arena::remove` indexes the snapshot vector
directly, so a bucket index beyond the snapshot is a Rust `Vec` index panic,
not a none return.  On a fresh `Arena::new` (2 buckets of 64 entries), slot
128 has bucket index 2 ≥ 2 and removing it panics. -/
theorem c2_counterexample :
    (Arena.new Nat 1 64).remove 128 64 = .error () ∧
    (Arena.new Nat 1 64).buckets.length ≤ 128 / 64 := by
  exact ⟨rfl, by decide⟩

/-- C2 amended (proved): for every slot whose bucket index is at or beyond
the snapshot length, `Arena::remove` panics with an index-out-of-bounds
error (modelled as `.error`) instead of returning none. -/
theorem c2_amended {α : Type} (ar : Arena α) (slot l : Nat)
    (h : ar.buckets.length ≤ slot / l) :
    ar.remove slot l = .error () := by
  unfold Arena.remove
  dsimp only
  rw [List.getElem?_eq_none h]

/-- Witness for the amended C2 on the zero-capacity arena. -/
theorem c2_witness :
    (Arena.with_capacity Nat 1 64 0).remove 0 64 = .error () :=
  c2_amended _ 0 64 (by decide)

/-- C3 as stated is false: starting from a zero-capacity arena, one failed
`try_insert` (observed length 0) is followed by `try_reserve::<1>(0 + 1)`,
growing the table to exactly 1 bucket — not to 0 + 4 via try_grow nor to
0 + 8 via a blocking grow. -/
theorem c3_counterexample :
    (match Arena.insert 2 (Arena.with_capacity Nat 1 64 0) 5 1 1 64 with
     | some (_, ar) => ar.buckets.length
     | none => 0) = 1 ∧ (1 : Nat) ≠ 4 ∧ (1 : Nat) ≠ 8 := by
  exact ⟨by decide, by decide, by decide⟩

/-- C3 amended (proved): whenever the `try_insert` step of `Arena::insert` fails with
an observed length `len` below `max_buckets`, `insert` calls
`try_reserve::<1>(len + 1)` — which, uncontended, grows the table to exactly
`len + 1` buckets — and then retries the insertion. -/
theorem c3_amended {α : Type} (fuel : Nat) (ar : Arena α) (value v' : α)
    (tid b l len : Nat)
    (hfail : ar.try_insert value tid l = .error (v', len))
    (hlen : ar.buckets.length = len)
    (hmax : len < Arena.max_buckets l) :
    Arena.insert (fuel + 1) ar value tid b l =
      Arena.insert fuel (ar.insertOnFailure b l len) v' tid b l ∧
    (ar.insertOnFailure b l len).buckets.length = len + 1 := by
  constructor
  · show (match ar.try_insert value tid l with
      | .ok r => some r
      | .error (v, len) => Arena.insert fuel (ar.insertOnFailure b l len) v tid b l) =
      Arena.insert fuel (ar.insertOnFailure b l len) v' tid b l
    rw [hfail]
  · unfold Arena.insertOnFailure
    rw [if_pos (Nat.ne_of_lt hmax)]
    unfold Arena.try_reserve
    dsimp only
    rw [if_neg (by omega)]
    have htarget : min (len + 1) (Arena.max_buckets l) = len + 1 :=
      Nat.min_eq_left (Nat.succ_le_of_lt hmax)
    rw [htarget, hlen]
    rw [if_neg (by omega)]
    simp [hlen]

/-- Witness for the amended C3: from the empty arena, the failure branch
reserves exactly one bucket and retries. -/
theorem c3_witness :
    Arena.insert 1 (Arena.with_capacity Nat 1 64 0) 5 1 1 64 =
      Arena.insert 0 ((Arena.with_capacity Nat 1 64 0).insertOnFailure 1 64 0) 5 1 1 64 ∧
    ((Arena.with_capacity Nat 1 64 0).insertOnFailure 1 64 0).buckets.length = 1 := by
  exact c3_amended 0 (Arena.with_capacity Nat 1 64 0) 5 5 1 1 64 0 (by rfl)
    (by decide) (by decide)

/-- C10 as stated is false: `with_capacity` caps the preallocation at
`max_buckets()`.  `LEN = 2^31` is a legal configuration (nonzero, divisible
by the 64-bit word size, at most u32::MAX) with `max_buckets() = 1`, so
`Arena::new()` preallocates `min(2, 1) = 1` bucket, not 2. -/
theorem c10_counterexample :
    (Arena.new Unit (2 ^ 25) (2 ^ 31)).buckets.length = 1 ∧
    (2 ^ 31) % WORD_BITS = 0 ∧ (2 ^ 31 : Nat) ≠ 0 ∧ 2 ^ 31 ≤ U32_MAX ∧
    2 ^ 31 / WORD_BITS = 2 ^ 25 ∧
    (Arena.new Unit (2 ^ 25) (2 ^ 31)).buckets.length ≠ 2 := by
  have hlen : (Arena.new Unit (2 ^ 25) (2 ^ 31)).buckets.length = 1 := by
    unfold Arena.new Arena.with_capacity
    rw [List.length_replicate]
    norm_num [Arena.max_buckets, U32_MAX]
  refine ⟨hlen, by norm_num [WORD_BITS], by norm_num, by norm_num [U32_MAX],
    by norm_num [WORD_BITS], by rw [hlen]; norm_num⟩

/-- C10 amended (proved): `Arena::new()` is `with_capacity(2)` and
preallocates `min(2, max_buckets())` buckets before any insertion; this is
exactly 2 for every element type whenever `max_buckets() ≥ 2`, and the
fresh arena is never empty. -/
theorem c10_amended (α : Type) (b l : Nat) (hl : 0 < l) (hle : l ≤ U32_MAX) :
    Arena.new α b l = Arena.with_capacity α b l 2 ∧
    (Arena.new α b l).buckets.length = min 2 (Arena.max_buckets l) ∧
    (2 ≤ Arena.max_buckets l → (Arena.new α b l).buckets.length = 2) ∧
    (Arena.new α b l).is_empty = false := by
  have hlen : (Arena.new α b l).buckets.length = min 2 (Arena.max_buckets l) := by
    unfold Arena.new Arena.with_capacity
    rw [List.length_replicate]
  have hmax : 1 ≤ Arena.max_buckets l := by
    unfold Arena.max_buckets
    rw [Nat.one_le_div_iff hl]
    exact hle
  refine ⟨rfl, hlen, ?_, ?_⟩
  · intro h2
    rw [hlen, Nat.min_eq_left h2]
  · unfold Arena.is_empty Arena.len
    rw [hlen]
    have : min 2 (Arena.max_buckets l) ≠ 0 := by omega
    simp [this]

/-- Witness for the amended C10 at the test configuration of the crate
`B = 1, L = 64`. -/
theorem c10_witness :
    (Arena.new Unit 1 64).buckets.length = 2 ∧ (Arena.new Unit 1 64).is_empty = false := by
  have h := c10_amended Unit 1 64 (by decide) (by decide)
  exact ⟨h.2.2.1 (by decide), h.2.2.2⟩
